import Mathlib

/-!
Verification of the retrieval-augmented answering pipeline of the
North London Planning Intelligence Agent backend.

Shallow embedding conventions:
* Python floats are modelled as rationals (`ℚ`); the scores manipulated by the
  pipeline are plain arithmetic over weights and similarity values.
* External libraries (the OpenAI embedding endpoint, `rank_bm25.BM25Okapi`,
  `tiktoken`, the `re` sentence splitter, `hashlib` digests, Redis) are
  modelled as explicit function parameters; everything else is translated
  directly from the backend sources.
* `list.sort(key=k, reverse=True)` in CPython is a stable sort placing larger
  keys first; it is modelled by `List.insertionSort` with the relation
  `k b ≤ k a`, which has exactly that behaviour (ties keep original order).
* Mutation of Pydantic model fields is modelled by functional record update.
-/

namespace NLPlanning

/-- Search scores are rationals in the embedding. -/
abbrev Score := ℚ

/-- Model of `app.models.documents.SearchResult` (Pydantic model). -/
structure SearchResult where
  chunkId : String
  documentId : String
  documentName : String
  borough : String
  content : String
  pageNumber : Option Nat := none
  sectionTitle : Option String := none
  similarityScore : Score
  bm25Score : Option Score := none
  combinedScore : Option Score := none
  metadata : List (String × String) := []
  deriving DecidableEq, Repr

/-- Relation ordering larger keys first; `List.insertionSort` over it models
CPython `list.sort(key=k, reverse=True)` (stable, descending). -/
def keyGE (k : α → Score) (a b : α) : Prop := k b ≤ k a

instance (k : α → Score) : DecidableRel (keyGE k) := fun a b => by
  unfold keyGE; infer_instance

instance (k : α → Score) : IsTotal α (keyGE k) :=
  ⟨fun a b => le_total (k b) (k a)⟩

instance (k : α → Score) : IsTrans α (keyGE k) :=
  ⟨fun _ _ _ hab hbc => le_trans hbc hab⟩

/-- Stable descending sort by a rational key: the model of
`list.sort(key=k, reverse=True)`. -/
def pySortDesc (k : α → Score) (l : List α) : List α :=
  l.insertionSort (keyGE k)

/-- Model of Python `str.lower()` (character-wise lowercasing). -/
def pyLower (s : String) : String := String.mk (s.data.map Char.toLower)

/-- Model of Python `str.strip()` with no argument: remove leading and
trailing whitespace. -/
def pyStrip (s : String) : String :=
  String.mk
    (((s.data.dropWhile Char.isWhitespace).reverse.dropWhile
      Char.isWhitespace).reverse)

/-- Accumulator loop for `splitRuns`: `cur` holds the reversed current run. -/
def splitRunsAux (p : Char → Bool) : List Char → List Char → List String
  | [], cur => if cur.isEmpty then [] else [String.mk cur.reverse]
  | c :: cs, cur =>
    if p c then
      splitRunsAux p cs (c :: cur)
    else if cur.isEmpty then
      splitRunsAux p cs []
    else
      String.mk cur.reverse :: splitRunsAux p cs []

/-- Maximal runs of characters satisfying `p`, in order. -/
def splitRuns (p : Char → Bool) (l : List Char) : List String :=
  splitRunsAux p l []

/-- Word characters of the regex class `\w` (ASCII fragment). -/
def isWordChar (c : Char) : Bool := c.isAlphanum || c = '_'

/-- Model of `HybridRetriever._tokenize`: lowercase, take the matches of
`\b\w+\b` (maximal word-character runs), drop tokens of length at most 2. -/
def pyTokenize (text : String) : List String :=
  (splitRuns isWordChar (pyLower text).data).filter (fun t => 2 < t.length)

/-- Model of Python `str.split()` with no argument: split on whitespace runs,
discarding empty pieces. -/
def pyWords (s : String) : List String :=
  splitRuns (fun c => !c.isWhitespace) s.data

/-- Model of Python substring containment on character lists (`needle in hay`
for `str` operands); the empty needle is contained in everything. -/
def listContainsSub (needle : List Char) : List Char → Bool
  | [] => needle.isEmpty
  | c :: t => needle.isPrefixOf (c :: t) || listContainsSub needle t

/-- String form of `listContainsSub`: Python `needle in hay`. -/
def strIn (needle hay : String) : Bool := listContainsSub needle.data hay.data

/-- Model of Python `max` over a list of floats (left fold; the `[]` case is
unreachable in the retriever, which only normalizes nonempty score lists). -/
def pyMax : List Score → Score
  | [] => 0
  | x :: xs => xs.foldl max x

/-- Model of the BM25 normalization step of `HybridRetriever._hybrid_search`
(retriever.py lines 133-135): divide by the maximum score, substituting 1 for
the divisor when the maximum is not positive. -/
def normalizeBm25 (scores : List Score) : List Score :=
  let maxB := if 0 < pyMax scores then pyMax scores else 1
  scores.map (fun s => s / maxB)

/-- Arguments of a call to `supabase_service.vector_search`. -/
structure VectorRequest where
  threshold : Score
  count : Nat
  borough : Option String
  category : Option String
  deriving DecidableEq, Repr

/-- Candidate count requested by `_hybrid_search`: `min(top_k * 3, 50)`. -/
def hybridCandidateCount (topK : Nat) : Nat := min (topK * 3) 50

/-- Sort key of `_hybrid_search`: `lambda x: x.combined_score or 0`. -/
def combinedKey (r : SearchResult) : Score := r.combinedScore.getD 0

/-- Model of `HybridRetriever._hybrid_search` (retriever.py lines 92-152).
The vector index and the `rank_bm25.BM25Okapi` scorer are passed as function
parameters (`vectorSearch`, `bm25`); the returned pair carries the produced
result list together with the request issued to the vector index.  The
per-index assignment of `normalized_bm25[i]` to `vector_results[i]` is
rendered as a `zip` (BM25 yields one score per candidate text). -/
def hybridSearch (vectorSearch : VectorRequest → List SearchResult)
    (bm25 : List (List String) → List String → List Score)
    (vectorWeight bm25Weight : Score)
    (query : String) (topK : Nat) (borough category : Option String)
    (threshold : Score) : List SearchResult × VectorRequest :=
  let req : VectorRequest :=
    ⟨threshold * (8 / 10), hybridCandidateCount topK, borough, category⟩
  let vectorResults := vectorSearch req
  if vectorResults = [] then
    ([], req)
  else
    let tokenizedTexts := (vectorResults.map (·.content)).map pyTokenize
    let tokenizedQuery := pyTokenize query
    let normalized := normalizeBm25 (bm25 tokenizedTexts tokenizedQuery)
    let combined := (vectorResults.zip normalized).map (fun p =>
      { p.1 with
        bm25Score := some p.2
        combinedScore := some (p.1.similarityScore * vectorWeight + p.2 * bm25Weight) })
    ((pySortDesc combinedKey combined).take topK, req)

/-- Configuration of the `Reranker` read from settings at construction. -/
structure RerankerCfg where
  enabled : Bool
  topK : Nat
  deriving Repr

/-- Model of `set(query.lower().split())` in `Reranker._heuristic_rerank`:
the distinct lowercased whitespace-separated query terms. -/
def queryTerms (query : String) : List String :=
  (pyWords (pyLower query)).dedup

/-- Base score of a result in `_heuristic_rerank`:
`result.combined_score or result.similarity_score` (Python `or` falls through
on `None` and on `0.0`). -/
def baseScore (r : SearchResult) : Score :=
  match r.combinedScore with
  | some c => if c ≠ 0 then c else r.similarityScore
  | none => r.similarityScore

/-- Number of distinct query terms occurring in the lowercased content. -/
def termMatchCount (query : String) (r : SearchResult) : Nat :=
  ((queryTerms query).filter (fun t => strIn t (pyLower r.content))).length

/-- Exact-phrase condition of `_heuristic_rerank`:
`query.lower() in content_lower`. -/
def phraseMatch (query : String) (r : SearchResult) : Bool :=
  strIn (pyLower query) (pyLower r.content)

/-- Section-title condition of `_heuristic_rerank`: the title is present
(and truthy, i.e. nonempty) and contains some query term. -/
def sectionMatch (query : String) (r : SearchResult) : Bool :=
  match r.sectionTitle with
  | some sec => sec ≠ "" && (queryTerms query).any (fun t => strIn t (pyLower sec))
  | none => false

/-- Page boost of `_heuristic_rerank`:
`if result.page_number and result.page_number < 20: score += 0.02`
(a page number of 0 is falsy and earns no boost). -/
def pageBoost (r : SearchResult) : Score :=
  match r.pageNumber with
  | some p => if p ≠ 0 ∧ p < 20 then 1 / 50 else 0
  | none => 0

/-- Adjusted score computed by `Reranker._heuristic_rerank`
(reranker.py lines 69-96). -/
def adjustedScore (query : String) (r : SearchResult) : Score :=
  baseScore r + (termMatchCount query r : ℚ) * (5 / 100)
    + (if phraseMatch query r then 1 / 10 else 0)
    + (if sectionMatch query r then 1 / 10 else 0)
    + pageBoost r

/-- Model of `Reranker._heuristic_rerank`: score each result into a side list
of `(score, result)` pairs, stably sort the pairs by score descending, and
return the results in that order.  The result objects are not modified. -/
def heuristicRerank (query : String) (results : List SearchResult) :
    List SearchResult :=
  (pySortDesc Prod.fst (results.map (fun r => (adjustedScore query r, r)))).map
    Prod.snd

/-- Model of `Reranker.rerank` (reranker.py lines 28-53), including the Python
truthiness of `top_k` in `results[:top_k] if top_k else results` and in
`top_k = top_k or self.top_k`. -/
def rerank (cfg : RerankerCfg) (query : String) (results : List SearchResult)
    (topK : Option Nat) : List SearchResult :=
  if cfg.enabled = false ∨ results = [] then
    match topK with
    | some k => if k ≠ 0 then results.take k else results
    | none => results
  else
    let k := match topK with
      | some k => if k ≠ 0 then k else cfg.topK
      | none => cfg.topK
    (heuristicRerank query results).take k

/-- Ghost tag recording how a chunk was produced: from a buffer never seeded
with overlap content, from a buffer seeded with (nonempty) overlap content,
or as a leaf of the raw-token forced split.  The tags are bookkeeping only;
erasing them recovers the chunk list of the source. -/
inductive ChunkTag
  | normal
  | overlapSeeded
  | forcedLeaf
  deriving DecidableEq, Repr

/-- Model of the `TextChunk` dataclass of chunker.py. -/
structure TextChunk where
  content : String
  chunkIndex : Nat
  tokenCount : Nat
  pageNumber : Option Nat := none
  sectionTitle : Option String := none
  startChar : Nat := 0
  endChar : Nat := 0
  deriving DecidableEq, Repr

/-- Constructor arguments of `SemanticChunker`. -/
structure ChunkerCfg where
  chunkSize : Nat
  chunkOverlap : Nat
  deriving Repr

/-- Model of the `tiktoken` encoding used by the chunker: an external library,
passed as a parameter (tokens are numbers; `decode` inverts `encode`). -/
structure Tokenizer where
  encode : String → List Nat
  decode : List Nat → String

/-- Token count of a text: `len(self.encoding.encode(text))`. -/
def countTokens (tk : Tokenizer) (s : String) : Nat := (tk.encode s).length

/-- Accumulator loop modelling `re.split(r"\n\n+", text)`: `cur` is the
reversed current piece, `nl` the count of pending newline characters. -/
def splitParasAux : List Char → List Char → Nat → List String
  | [], cur, nl =>
    if 2 ≤ nl then [String.mk cur.reverse, ""]
    else [String.mk (cur.reverse ++ List.replicate nl '\n')]
  | c :: cs, cur, nl =>
    if c = '\n' then splitParasAux cs cur (nl + 1)
    else if 2 ≤ nl then String.mk cur.reverse :: splitParasAux cs [c] 0
    else splitParasAux cs (c :: (List.replicate nl '\n' ++ cur)) 0

/-- Model of `self._paragraph_pattern.split(text)` with pattern `\n\n+`:
split on maximal runs of two or more newlines. -/
def splitParagraphs (text : String) : List String :=
  splitParasAux text.data [] 0

/-- Model of Python `sep.join(pieces)`. -/
def joinSep (sep : String) : List String → String
  | [] => ""
  | [x] => x
  | x :: y :: rest => x ++ sep ++ joinSep sep (y :: rest)

/-- Loop shared by `_get_overlap` and `_get_sentence_overlap`: walk the
pieces from the end (the input here is already reversed), taking whole
pieces while they fit in the overlap budget, stopping at the first that
does not. -/
def overlapLoop (tk : Tokenizer) (budget : Nat) :
    List String → Nat → List String → List String
  | [], _, acc => acc
  | p :: rest, used, acc =>
    if used + countTokens tk p ≤ budget then
      overlapLoop tk budget rest (used + countTokens tk p) (p :: acc)
    else acc

/-- Model of `SemanticChunker._get_overlap` (chunker.py lines 316-333). -/
def getOverlap (tk : Tokenizer) (budget : Nat) (paragraphs : List String) :
    List String :=
  if paragraphs.isEmpty then [] else overlapLoop tk budget paragraphs.reverse 0 []

/-- Model of `SemanticChunker._get_sentence_overlap` (chunker.py
lines 335-351); textually identical to `_get_overlap`. -/
def getSentenceOverlap (tk : Tokenizer) (budget : Nat)
    (sentences : List String) : List String :=
  if sentences.isEmpty then [] else overlapLoop tk budget sentences.reverse 0 []

/-- Iterations of the `range(0, len(tokens), step)` loop of `_force_split`.
The fuel argument bounds the iteration count; `toks.length` suffices whenever
`step ≥ 1` (each iteration drops at least one token).  Python's `range`
raises for `step = 0`, which the chunker configurations exclude
(`chunk_overlap < chunk_size`). -/
def forceSplitGo (tk : Tokenizer) (size step : Nat) (page : Option Nat)
    (sec : Option String) : Nat → Nat → List Nat → List (TextChunk × ChunkTag)
  | _, _, [] => []
  | 0, _, _ => []
  | fuel + 1, idx, toks =>
    let chunkToks := toks.take size
    (⟨tk.decode chunkToks, idx, chunkToks.length, page, sec, 0, 0⟩, .forcedLeaf)
      :: forceSplitGo tk size step page sec fuel (idx + 1) (toks.drop step)

/-- Model of `SemanticChunker._force_split` (chunker.py lines 287-314):
slice the raw token list into windows of `chunk_size` tokens advancing by
`chunk_size - chunk_overlap`.  The produced chunks keep the dataclass
defaults `start_char = end_char = 0`. -/
def forceSplit (tk : Tokenizer) (cfg : ChunkerCfg) (text : String)
    (startIndex : Nat) (page : Option Nat) (sec : Option String) :
    List (TextChunk × ChunkTag) :=
  let toks := tk.encode text
  forceSplitGo tk cfg.chunkSize (cfg.chunkSize - cfg.chunkOverlap) page sec
    toks.length startIndex toks

/-- Buffer state of the accumulation loops of `chunk_text` and
`_chunk_large_paragraph`: pending pieces, their recorded token count, the
next chunk index, the running start offset, and the buffer's ghost tag. -/
structure BufState where
  content : List String
  tokens : Nat
  idx : Nat
  start : Nat
  tag : ChunkTag

/-- Model of the sentence loop of `SemanticChunker._chunk_large_paragraph`
(chunker.py lines 213-283), including the final-chunk flush.  `acc` holds the
chunks emitted so far in reverse; the buffer join separator is a space. -/
def sentLoop (tk : Tokenizer) (cfg : ChunkerCfg) (page : Option Nat)
    (sec : Option String) :
    List String → BufState → List (TextChunk × ChunkTag) →
      List (TextChunk × ChunkTag)
  | [], st, acc =>
    if st.content.isEmpty then acc.reverse
    else
      let txt := joinSep " " st.content
      ((⟨txt, st.idx, st.tokens, page, sec, st.start, st.start + txt.length⟩,
        st.tag) :: acc).reverse
  | sentence :: rest, st, acc =>
    let sTok := countTokens tk sentence
    if cfg.chunkSize < sTok then
      let finalized :=
        if st.content.isEmpty then (acc, st.idx)
        else
          let txt := joinSep " " st.content
          ((⟨txt, st.idx, st.tokens, page, sec, st.start,
              st.start + txt.length⟩, st.tag) :: acc, st.idx + 1)
      let forced := forceSplit tk cfg sentence finalized.2 page sec
      let acc2 := forced.reverse ++ finalized.1
      let start2 := match acc2 with
        | [] => 0
        | c :: _ => c.1.endChar
      sentLoop tk cfg page sec rest
        ⟨[], 0, finalized.2 + forced.length, start2, .normal⟩ acc2
    else if cfg.chunkSize < st.tokens + sTok then
      let txt := joinSep " " st.content
      let ch : TextChunk :=
        ⟨txt, st.idx, st.tokens, page, sec, st.start, st.start + txt.length⟩
      let overlap := getSentenceOverlap tk cfg.chunkOverlap st.content
      let newContent := overlap ++ [sentence]
      sentLoop tk cfg page sec rest
        ⟨newContent, countTokens tk (joinSep " " newContent), st.idx + 1,
          ch.endChar, if overlap.isEmpty then .normal else .overlapSeeded⟩
        ((ch, st.tag) :: acc)
    else
      sentLoop tk cfg page sec rest
        ⟨st.content ++ [sentence], st.tokens + sTok, st.idx, st.start, st.tag⟩
        acc

/-- Model of `SemanticChunker._chunk_large_paragraph` (chunker.py
lines 196-285).  Sentence splitting (the `re` pattern
`(?<=[.!?])\s+(?=[A-Z])|(?<=\.)\s*\n`) is an external `re` call, passed as
the `splitS` parameter; the split pieces are stripped and empties dropped
as in the source. -/
def chunkLargeParagraph (tk : Tokenizer) (cfg : ChunkerCfg)
    (splitS : String → List String) (paragraph : String) (startIndex : Nat)
    (page : Option Nat) (sec : Option String) : List (TextChunk × ChunkTag) :=
  let sentences := ((splitS paragraph).map pyStrip).filter (· ≠ "")
  sentLoop tk cfg page sec sentences ⟨[], 0, startIndex, 0, .normal⟩ []

/-- Model of the paragraph loop of `SemanticChunker.chunk_text` (chunker.py
lines 89-163), including the final-chunk flush.  `acc` holds the chunks
emitted so far in reverse; the buffer join separator is a blank line. -/
def paraLoop (tk : Tokenizer) (cfg : ChunkerCfg)
    (splitS : String → List String) (page : Option Nat) (sec : Option String) :
    List String → BufState → List (TextChunk × ChunkTag) →
      List (TextChunk × ChunkTag)
  | [], st, acc =>
    if st.content.isEmpty then acc.reverse
    else
      let txt := joinSep "\n\n" st.content
      ((⟨txt, st.idx, st.tokens, page, sec, st.start, st.start + txt.length⟩,
        st.tag) :: acc).reverse
  | para :: rest, st, acc =>
    let pTok := countTokens tk para
    if cfg.chunkSize < pTok then
      let finalized :=
        if st.content.isEmpty then (acc, st.idx)
        else
          let txt := joinSep "\n\n" st.content
          ((⟨txt, st.idx, st.tokens, page, sec, st.start,
              st.start + txt.length⟩, st.tag) :: acc, st.idx + 1)
      let sentenceChunks := chunkLargeParagraph tk cfg splitS para finalized.2
        page sec
      let acc2 := sentenceChunks.reverse ++ finalized.1
      let start2 := match acc2 with
        | [] => 0
        | c :: _ => c.1.endChar
      paraLoop tk cfg splitS page sec rest
        ⟨[], 0, finalized.2 + sentenceChunks.length, start2, .normal⟩ acc2
    else if cfg.chunkSize < st.tokens + pTok then
      let txt := joinSep "\n\n" st.content
      let ch : TextChunk :=
        ⟨txt, st.idx, st.tokens, page, sec, st.start, st.start + txt.length⟩
      let overlap := getOverlap tk cfg.chunkOverlap st.content
      let newContent := overlap ++ [para]
      paraLoop tk cfg splitS page sec rest
        ⟨newContent, countTokens tk (joinSep "\n\n" newContent), st.idx + 1,
          ch.endChar, if overlap.isEmpty then .normal else .overlapSeeded⟩
        ((ch, st.tag) :: acc)
    else
      paraLoop tk cfg splitS page sec rest
        ⟨st.content ++ [para], st.tokens + pTok, st.idx, st.start, st.tag⟩
        acc

/-- Model of `SemanticChunker.chunk_text` (chunker.py lines 59-163), with the
ghost provenance tag attached to every produced chunk. -/
def chunkTextTagged (tk : Tokenizer) (cfg : ChunkerCfg)
    (splitS : String → List String) (text : String) (page : Option Nat)
    (sec : Option String) : List (TextChunk × ChunkTag) :=
  if pyStrip text = "" then []
  else
    let paragraphs :=
      ((splitParagraphs (pyStrip text)).map pyStrip).filter (· ≠ "")
    paraLoop tk cfg splitS page sec paragraphs ⟨[], 0, 0, 0, .normal⟩ []

/-- Tag-erased chunk list: exactly the chunks `chunk_text` returns. -/
def chunkText (tk : Tokenizer) (cfg : ChunkerCfg)
    (splitS : String → List String) (text : String) (page : Option Nat)
    (sec : Option String) : List TextChunk :=
  (chunkTextTagged tk cfg splitS text page sec).map Prod.fst

/-- Embedding vectors (entries modelled as rationals). -/
abbrev Vec := List ℚ

/-- `EmbeddingService.EMBEDDING_DIMENSIONS`: text-embedding-3-large outputs
3072 dimensions. -/
def EMBEDDING_DIMENSIONS : Nat := 3072

/-- OpenAI batch limit `EmbeddingService.MAX_BATCH_SIZE`. -/
def MAX_BATCH_SIZE : Nat := 100

/-- The locally computed placeholder `[0.0] * EMBEDDING_DIMENSIONS`. -/
def zeroVec : Vec := List.replicate EMBEDDING_DIMENSIONS 0

/-- The emptiness test `not text or not text.strip()` of the embedder
(true exactly for empty or whitespace-only text). -/
def isEmptyOrWs (text : String) : Bool := pyStrip text = ""

/-- The `ValueError("Cannot embed empty text")` raised by `embed_text`. -/
inductive EmbedError
  | emptyText
  deriving DecidableEq, Repr

/-- Model of `EmbeddingService.embed_text` (embedder.py lines 36-67).  The
remote embedding endpoint is the parameter `remote`; the cache is a read
oracle (this call's own write-back cannot affect its outputs).  The second
component logs the texts sent to the remote service; a cached hit must be a
truthy (nonempty) list, as in `if cached:`. -/
def embedText (remote : String → Vec) (cache : String → Option Vec)
    (text : String) (useCache : Bool) :
    Except EmbedError Vec × List String :=
  if isEmptyOrWs text then (.error .emptyText, [])
  else if useCache then
    match cache text with
    | some v => if v.isEmpty then (.ok (remote text), [text]) else (.ok v, [])
    | none => (.ok (remote text), [text])
  else (.ok (remote text), [text])

/-- Model of Python `enumerate` starting at `i`. -/
def pyEnumFrom (i : Nat) : List α → List (Nat × α)
  | [] => []
  | x :: xs => (i, x) :: pyEnumFrom (i + 1) xs

/-- Model of Python `enumerate`. -/
def pyEnum (l : List α) : List (Nat × α) := pyEnumFrom 0 l

/-- Slices `[l[i:i+n] for i in range(0, len(l), n)]`; the fuel `l.length`
suffices for every positive `n` (here `n = MAX_BATCH_SIZE = 100`). -/
def batchesGo (n : Nat) : Nat → List α → List (List α)
  | _, [] => []
  | 0, _ => []
  | fuel + 1, l => l.take n :: batchesGo n fuel (l.drop n)

/-- Batch partition used by `embed_texts`. -/
def batches (n : Nat) (l : List α) : List (List α) := batchesGo n l.length l

/-- First pass of `embed_texts` (embedder.py lines 90-108): the
`embeddings` array after the cache-check loop — zero vectors at empty
texts, truthy cache hits filled in, `None` elsewhere (with `use_cache`
off, `None` everywhere). -/
def embedInit (cache : String → Option Vec) (texts : List String)
    (useCache : Bool) : List (Option Vec) :=
  if useCache then
    texts.map (fun t =>
      if isEmptyOrWs t then some zeroVec
      else
        match cache t with
        | some v => if v.isEmpty then none else some v
        | none => none)
  else texts.map (fun _ => none)

/-- The `texts_to_embed` list of `embed_texts`: indexed non-empty texts
without a truthy cache hit (all non-empty texts when `use_cache` is off). -/
def embedPending (cache : String → Option Vec) (texts : List String)
    (useCache : Bool) : List (Nat × String) :=
  if useCache then
    (pyEnum texts).filter (fun p =>
      !(isEmptyOrWs p.2) &&
        (match cache p.2 with
         | some v => v.isEmpty
         | none => true))
  else (pyEnum texts).filter (fun p => !(isEmptyOrWs p.2))

/-- One batch iteration of `embed_texts` (lines 117-135): request the batch
from the remote service and store each embedding at its original index. -/
def embedApplyBatch (remoteBatch : List String → List Vec)
    (acc : List (Option Vec)) (batch : List (Nat × String)) :
    List (Option Vec) :=
  (batch.zip (remoteBatch (batch.map Prod.snd))).foldl
    (fun a p => a.set p.1.1 (some p.2)) acc

/-- Model of `EmbeddingService.embed_texts` (embedder.py lines 69-146).
Returns the embeddings (in input order) together with the log of batch
requests issued to the remote service; the trailing `None`-fill
(lines 142-144) is the final `map`. -/
def embedTexts (remoteBatch : List String → List Vec)
    (cache : String → Option Vec) (texts : List String) (useCache : Bool) :
    List Vec × List (List String) :=
  if texts.isEmpty then ([], [])
  else
    let bs := batches MAX_BATCH_SIZE (embedPending cache texts useCache)
    let afterBatches := bs.foldl (embedApplyBatch remoteBatch)
      (embedInit cache texts useCache)
    (afterBatches.map (fun o => o.getD zeroVec),
      bs.map (fun b => b.map Prod.snd))

/-- Model of `app.models.chat.Citation` (the `section` field is rendered as
`sectionName`, `section` being a Lean keyword). -/
structure Citation where
  documentName : String
  borough : String
  sectionName : Option String := none
  pageNumber : Option Nat := none
  paragraph : Option String := none
  relevanceScore : Score
  chunkId : Option String := none
  deriving DecidableEq, Repr

/-- Python `s[:n]` on strings. -/
def takeChars (n : Nat) (s : String) : String := String.mk (s.data.take n)

/-- The `is_cited` heuristic of `ResponseGenerator._extract_citations`
(generator.py lines 231-236): document name, borough, or a truthy section
title occurring verbatim (case-insensitively) in the answer text. -/
def isCited (response : String) (r : SearchResult) : Bool :=
  strIn (pyLower r.documentName) (pyLower response)
  || strIn (pyLower r.borough) (pyLower response)
  || (match r.sectionTitle with
      | some sec => sec ≠ "" && strIn (pyLower sec) (pyLower response)
      | none => false)

/-- The Citation built from a SearchResult in `_extract_citations`
(generator.py lines 240-250), including the 200-character excerpt. -/
def mkCitation (r : SearchResult) : Citation :=
  { documentName := r.documentName
    borough := r.borough
    sectionName := r.sectionTitle
    pageNumber := r.pageNumber
    paragraph := some (if 200 < r.content.length then
      takeChars 200 r.content ++ "..." else r.content)
    relevanceScore := r.similarityScore
    chunkId := some r.chunkId }

/-- First pass of `_extract_citations`: keep results that are cited or have
`similarity_score > 0.85`, in order, as Citations. -/
def citationCandidates (results : List SearchResult) (response : String) :
    List Citation :=
  (results.filter (fun r =>
    isCited response r || decide ((85 / 100 : ℚ) < r.similarityScore))).map
    mkCitation

/-- Deduplication loop of `_extract_citations` (generator.py lines 252-258):
keep the first citation for each document name. -/
def dedupByName : List Citation → List String → List Citation
  | [], _ => []
  | c :: rest, seen =>
    if c.documentName ∈ seen then dedupByName rest seen
    else c :: dedupByName rest (c.documentName :: seen)

/-- Model of `ResponseGenerator._extract_citations` (generator.py
lines 215-260). -/
def extractCitations (results : List SearchResult) (response : String) :
    List Citation :=
  (dedupByName (citationCandidates results response) []).take 5

/-- Model of `app.models.chat.ChatResponse`; `suggestedQuestions` carries the
question texts. -/
structure ChatResponse where
  sessionId : String
  message : String
  citations : List Citation := []
  suggestedQuestions : List String := []
  detectedBorough : Option String := none
  detectedLocation : Option String := none
  queryCount : Nat := 0
  requiresEmail : Bool := false
  processingTimeMs : Score := 0
  deriving DecidableEq, Repr

/-- In-process fallback store of `CacheService` (`self._local_cache`, a plain
dict), modelled as an insertion-ordered association list with unique keys. -/
abbrev LocalCache (V : Type) := List (String × V)

/-- Model of `CacheService.get` on the fallback path (Redis unavailable):
`self._local_cache.get(key)`. -/
def localGet (st : LocalCache V) (key : String) : Option V :=
  (st.find? (fun p => p.1 = key)).map Prod.snd

/-- Model of `CacheService.set` on the fallback path (Redis unavailable):
`self._local_cache[key] = value`.  The `ttl` argument is accepted and
discarded, as the source comments: "Fallback to local cache (no TTL)". -/
def localSet (st : LocalCache V) (key : String) (value : V) (ttl : Nat) :
    LocalCache V :=
  if st.any (fun p => p.1 = key) then
    st.map (fun p => if p.1 = key then (key, value) else p)
  else st ++ [(key, value)]

/-- Read issued at wall-clock time `now`.  `CacheService`'s fallback path
never consults a clock, so the result ignores `now`; the ghost parameter
makes TTL-expiry statements about the store expressible. -/
def localGetAt (st : LocalCache V) (key : String) (now : Nat) : Option V :=
  localGet st key

/-- Write issued at wall-clock time `now` (ghost, ignored like the TTL). -/
def localSetAt (st : LocalCache V) (key : String) (value : V) (ttl now : Nat) :
    LocalCache V :=
  localSet st key value ttl

/-- The `borough or "all"` component of the query cache key (an empty
borough string is falsy). -/
def boroughOrAll : Option String → String
  | some b => if b ≠ "" then b else "all"
  | none => "all"

/-- Model of `CacheService._generate_key`: `f"{prefix}:{md5(data)}"`, with
the `hashlib.md5` hex digest as the parameter `md5hex`. -/
def generateKey (md5hex : String → String) (pre data : String) : String :=
  pre ++ ":" ++ md5hex data

/-- Cache key used by `get_query_result`/`set_query_result` (cache.py
lines 103-123): prefix `query` over `f"{query}:{borough or 'all'}"`. -/
def queryCacheKey (md5hex : String → String) (query : String)
    (borough : Option String) : String :=
  generateKey md5hex "query" (query ++ ":" ++ boroughOrAll borough)

/-- Model of `CacheService.set_query_result` on the fallback path. -/
def setQueryResult (md5hex : String → String) (st : LocalCache V)
    (query : String) (result : V) (borough : Option String) (ttl : Nat) :
    LocalCache V :=
  localSet st (queryCacheKey md5hex query borough) result ttl

/-- A write request against the cache service. -/
structure CacheWrite (V : Type) where
  key : String
  value : V
  ttl : Nat
  deriving DecidableEq, Repr

/-- Model of `RAGEngine._cache_response` (engine.py lines 256-272): gating on
`response.requires_email`, then `set_query_result(query, result, borough,
ttl=3600)`.  Returns the issued write request (if any) together with the
resulting fallback-store state. -/
def cacheResponse (md5hex : String → String)
    (st : LocalCache ChatResponse) (query : String) (borough : Option String)
    (response : ChatResponse) :
    Option (CacheWrite ChatResponse) × LocalCache ChatResponse :=
  if response.requiresEmail then (none, st)
  else
    (some ⟨queryCacheKey md5hex query borough, response, 3600⟩,
      setQueryResult md5hex st query response borough 3600)

/-! Concrete instances used by the counterexamples and witnesses below. -/

/-- First hybrid-search candidate of the spec's fusion scenario:
similarity 0.9, raw BM25 score normalizing to 0.2. -/
def c1Result1 : SearchResult :=
  { chunkId := "ch1", documentId := "d1", documentName := "Camden Local Plan"
    borough := "Camden", content := "alpha text", similarityScore := 9 / 10 }

/-- Second hybrid-search candidate: similarity 0.6, raw BM25 score
normalizing to 1.0. -/
def c1Result2 : SearchResult :=
  { chunkId := "ch2", documentId := "d2", documentName := "Basement SPD"
    borough := "Camden", content := "beta text", similarityScore := 6 / 10 }

/-- Vector index oracle returning the two fusion-scenario candidates. -/
def c1VectorSearch : VectorRequest → List SearchResult :=
  fun _ => [c1Result1, c1Result2]

/-- BM25 oracle returning raw scores 0.2 and 1.0 (max 1.0, so the
normalized lexical scores are 0.2 and 1.0). -/
def c1Bm25 : List (List String) → List String → List Score :=
  fun _ _ => [1 / 5, 1]

/-- The fusion-scenario hybrid search run. -/
def c1Run : List SearchResult × VectorRequest :=
  hybridSearch c1VectorSearch c1Bm25 (7 / 10) (3 / 10) "query text" 10 none
    none (3 / 4)

/-- First candidate after fusion: combined score 0.69. -/
def c1Fused1 : SearchResult :=
  { c1Result1 with bm25Score := some (1/5), combinedScore := some (69/100) }

/-- Second candidate after fusion: combined score 0.72. -/
def c1Fused2 : SearchResult :=
  { c1Result2 with bm25Score := some 1, combinedScore := some (72/100) }

/-- Already-top-ranked reranker input: combined score 0.51, page 50
(no page boost), content free of the query term. -/
def c5Result1 : SearchResult :=
  { chunkId := "r1", documentId := "d1", documentName := "Doc A"
    borough := "Camden", content := "abc", similarityScore := 1 / 2
    combinedScore := some (51 / 100), pageNumber := some 50 }

/-- Second reranker input: combined score 0.50, page 1 (earns the +0.02
page boost), content free of the query term. -/
def c5Result2 : SearchResult :=
  { chunkId := "r2", documentId := "d2", documentName := "Doc B"
    borough := "Camden", content := "def", similarityScore := 1 / 2
    combinedScore := some (1 / 2), pageNumber := some 1 }

/-- Reranker configuration with reranking enabled. -/
def c5Cfg : RerankerCfg := ⟨true, 20⟩

/-- One-token-per-character tokenizer instantiating the external `tiktoken`
parameter for concrete chunker runs. -/
def charTokenizer : Tokenizer :=
  ⟨fun s => s.data.map Char.toNat, fun l => String.mk (l.map Char.ofNat)⟩

/-- Degenerate sentence splitter (the sentence pattern never matches). -/
def oneSentence : String → List String := fun s => [s]

/-- Chunker configuration: target 10 tokens, overlap budget 5. -/
def c3Cfg : ChunkerCfg := ⟨10, 5⟩

/-- Three paragraphs of 5, 4 and 9 tokens under `charTokenizer`: the first
two fill a chunk of 9 tokens, the 4-token paragraph is then carried as
overlap into the next buffer together with the 9-token paragraph. -/
def c3Text : String := "aaaaa\n\nbbbb\n\nccccccccc"

/-- Remote embedding oracle for concrete embedder runs. -/
def c2Remote : Vec := List.replicate EMBEDDING_DIMENSIONS (1 / 2)

/-- Chat response that gates on contact information. -/
def c8Gated : ChatResponse :=
  { sessionId := "s1", message := "please share your email"
    requiresEmail := true }

/-- Chat response with no contact-information gate. -/
def c8Plain : ChatResponse :=
  { sessionId := "s1", message := "an answer", requiresEmail := false }

/-- Stand-in digest function instantiating the `hashlib.md5` parameter. -/
def c8Md5 : String → String := fun s => s

/-! Helper lemmas about the stable descending sort. -/

theorem pySortDesc_perm (k : α → Score) (l : List α) :
    (pySortDesc k l).Perm l :=
  List.perm_insertionSort _ l

theorem pySortDesc_sorted (k : α → Score) (l : List α) :
    (pySortDesc k l).Sorted (keyGE k) :=
  List.sorted_insertionSort _ l

theorem pySortDesc_of_sorted (k : α → Score) {l : List α}
    (h : l.Sorted (keyGE k)) : pySortDesc k l = l :=
  h.insertionSort_eq

theorem orderedInsert_filter_key (k : α → Score) (x : α) (c : Score) :
    ∀ {m : List α}, m.Sorted (keyGE k) →
      (m.orderedInsert (keyGE k) x).filter (fun a => k a = c) =
        if k x = c then x :: m.filter (fun a => k a = c)
        else m.filter (fun a => k a = c) := by
  intro m
  induction m with
  | nil => intro _; by_cases hx : k x = c <;> simp [List.orderedInsert, hx]
  | cons b bs ih =>
    intro hs
    rw [List.sorted_cons] at hs
    by_cases hbx : keyGE k x b
    · by_cases hx : k x = c <;>
        simp [List.orderedInsert, hbx, List.filter_cons, hx]
    · have hxb : k x < k b := by
        simp only [keyGE, not_le] at hbx
        exact hbx
      by_cases hb : k b = c
      · have hx : ¬ k x = c := by
          intro hx
          rw [hx, hb] at hxb
          exact lt_irrefl _ hxb
        simp [List.orderedInsert, hbx, List.filter_cons, hb, hx, ih hs.2]
      · by_cases hx : k x = c <;>
          simp [List.orderedInsert, hbx, List.filter_cons, hb, hx, ih hs.2]

/-- Stability of the sort: elements sharing a key value keep their original
relative order (their filtered sublist is unchanged). -/
theorem pySortDesc_filter_key (k : α → Score) (c : Score) :
    ∀ l : List α,
      (pySortDesc k l).filter (fun a => k a = c) =
        l.filter (fun a => k a = c) := by
  intro l
  induction l with
  | nil => rfl
  | cons x xs ih =>
    show (List.orderedInsert _ x (pySortDesc k xs)).filter _ = _
    rw [orderedInsert_filter_key k x c (pySortDesc_sorted k xs), ih]
    by_cases hx : k x = c <;> simp [List.filter_cons, hx]

/-! C4 preliminary lemmas. -/

theorem dedupByName_spec (l : List Citation) :
    ∀ seen : List String,
      (dedupByName l seen).Pairwise
          (fun a b => a.documentName ≠ b.documentName) ∧
        ∀ c ∈ dedupByName l seen, c.documentName ∉ seen := by
  induction l with
  | nil => intro seen; simp [dedupByName]
  | cons c rest ih =>
    intro seen
    by_cases hc : c.documentName ∈ seen
    · simpa [dedupByName, hc] using ih seen
    · have ih' := ih (c.documentName :: seen)
      refine ⟨?_, ?_⟩
      · simp only [dedupByName, hc, if_false, List.pairwise_cons]
        refine ⟨fun b hb => ?_, ih'.1⟩
        have := ih'.2 b hb
        simp only [List.mem_cons, not_or] at this
        exact fun h => this.1 h.symm
      · intro d hd
        simp only [dedupByName, hc, if_false, List.mem_cons] at hd
        rcases hd with rfl | hd
        · exact hc
        · have := ih'.2 d hd
          simp only [List.mem_cons, not_or] at this
          exact this.2

/-- C4: for every list of context results and every generated answer text,
the citation list produced by citation extraction contains at most 5
citations, and no two citations in it share a document name. -/
theorem citation_cap_and_uniqueness (results : List SearchResult)
    (response : String) :
    (extractCitations results response).length ≤ 5 ∧
      (extractCitations results response).Pairwise
        (fun a b => a.documentName ≠ b.documentName) := by
  constructor
  · exact List.length_take_le 5 _
  · exact List.Pairwise.sublist (List.take_sublist 5 _)
      (dedupByName_spec (citationCandidates results response) []).1

/-- C10: every result object returned by the reranker is one of the input
result objects (hence with all fields unchanged); the enabled path permutes
the inputs, computing the adjusted scores only in a side list. -/
theorem reranker_frame (cfg : RerankerCfg) (query : String)
    (results : List SearchResult) (topK : Option Nat) :
    (heuristicRerank query results).Perm results ∧
      ∀ r ∈ rerank cfg query results topK, r ∈ results := by
  have hperm : (heuristicRerank query results).Perm results := by
    have h1 := (pySortDesc_perm Prod.fst
      (results.map (fun r => (adjustedScore query r, r)))).map Prod.snd
    simpa [heuristicRerank, List.map_map, Function.comp_def] using h1
  refine ⟨hperm, ?_⟩
  intro r hr
  unfold rerank at hr
  split at hr
  · cases topK with
    | none => exact hr
    | some kk =>
      simp only at hr
      split at hr
      · exact List.Sublist.mem hr (List.take_sublist kk results)
      · exact hr
  · exact hperm.mem_iff.mp (List.Sublist.mem hr (List.take_sublist _ _))

/-- Witness for `reranker_frame`: the disabled passthrough on a singleton. -/
theorem reranker_frame_witness : c5Result1 ∈ [c5Result1] :=
  (reranker_frame ⟨false, 20⟩ "q" [c5Result1] none).2 c5Result1
    (by simp [rerank])

/-- C8: a completed response gated on contact information
(`requires_email`) is never written to the query-response cache and leaves
the cache state unchanged; any other response is written under the
`(query, region)` key with the fixed TTL of 3600 seconds. -/
theorem cache_write_gating (md5hex : String → String)
    (st : LocalCache ChatResponse) (query : String) (borough : Option String)
    (response : ChatResponse) :
    (response.requiresEmail = true →
      cacheResponse md5hex st query borough response = (none, st)) ∧
    (response.requiresEmail = false →
      cacheResponse md5hex st query borough response =
        (some ⟨queryCacheKey md5hex query borough, response, 3600⟩,
          localSet st (queryCacheKey md5hex query borough) response 3600)) := by
  constructor <;> intro h <;> simp [cacheResponse, setQueryResult, h]

/-- Witness for `cache_write_gating`: a gated and an ungated concrete
response over the empty fallback store. -/
theorem cache_write_gating_witness :
    cacheResponse c8Md5 [] "q" none c8Gated = (none, []) ∧
      cacheResponse c8Md5 [] "q" none c8Plain =
        (some ⟨queryCacheKey c8Md5 "q" none, c8Plain, 3600⟩,
          localSet [] (queryCacheKey c8Md5 "q" none) c8Plain 3600) :=
  ⟨(cache_write_gating c8Md5 [] "q" none c8Gated).1 rfl,
    (cache_write_gating c8Md5 [] "q" none c8Plain).2 rfl⟩

/-- Reads of the CacheService fallback find the value last written under the
key, whatever TTL the write carried. -/
theorem localGet_localSet_self (st : LocalCache V) (key : String) (v : V)
    (ttl : Nat) : localGet (localSet st key v ttl) key = some v := by
  induction st with
  | nil => simp [localSet, localGet]
  | cons q qs ih =>
    by_cases hq : q.1 = key
    · simp [localSet, localGet, hq]
    · have hstep : localSet (q :: qs) key v ttl = q :: localSet qs key v ttl := by
        by_cases hqs : qs.any (fun p => p.1 = key) <;> simp [localSet, hq, hqs]
      rw [hstep]
      simpa [localGet, List.find?_cons, hq] using ih

/-- C9 counterexample: an entry written to the `CacheService` in-process
fallback at time 0 with a TTL of 3600 seconds is still returned by a read
issued at time 1000000, far past its expiry — reads do not purge expired
entries (the fallback records no expiry at all), contradicting the claim. -/
theorem cacheservice_fallback_ttl_counterexample :
    localGetAt (localSetAt ([] : LocalCache Nat) "querykey" 7 3600 0)
      "querykey" 1000000 = some 7 := by
  simp [localGetAt, localSetAt, localGet, localSet]

/-- C9 amended: when the network store is unavailable, the `CacheService`
in-process fallback ignores TTL entirely and never evicts: a read at any
later time returns the value last written under the key, and a write grows
the entry count by one for every fresh key (no size cap).  (The bounded,
TTL-purging fallback described by the spec exists in `core/cache.py`'s
`CacheManager`, which the query pipeline does not use.) -/
theorem cacheservice_fallback_no_ttl_no_eviction (V : Type)
    (st : LocalCache V) (key : String) (v : V) (ttl now now' : Nat) :
    localGetAt (localSetAt st key v ttl now) key now' = some v ∧
      (localSetAt st key v ttl now).length =
        (if st.any (fun p => p.1 = key) then st.length else st.length + 1) := by
  refine ⟨localGet_localSet_self st key v ttl, ?_⟩
  by_cases h : st.any (fun p => p.1 = key) <;> simp [localSetAt, localSet, h]

/-! Lemmas about `pyMax` (Python `max` as a left fold). -/

theorem foldl_max_init_le (xs : List Score) : ∀ a : Score, a ≤ xs.foldl max a := by
  induction xs with
  | nil => intro a; exact le_refl a
  | cons x xs ih => intro a; exact le_trans (le_max_left a x) (ih (max a x))

theorem le_foldl_max (xs : List Score) :
    ∀ (a s : Score), s ∈ xs → s ≤ xs.foldl max a := by
  induction xs with
  | nil => intro a s h; cases h
  | cons x xs ih =>
    intro a s h
    rcases List.mem_cons.mp h with rfl | h
    · exact le_trans (le_max_right a s) (foldl_max_init_le xs (max a s))
    · exact ih (max a x) s h

theorem le_pyMax {s : Score} {l : List Score} (h : s ∈ l) : s ≤ pyMax l := by
  cases l with
  | nil => cases h
  | cons x xs =>
    rcases List.mem_cons.mp h with rfl | h
    · exact foldl_max_init_le xs s
    · exact le_foldl_max xs x s h

/-- C7: over nonnegative BM25 scores (the range `rank_bm25` produces), the
retriever's normalization divides by the candidate-set maximum and lands in
[0,1]; when that maximum is 0 the divisor is replaced by 1 — no division by
zero — and every normalized score equals 0. -/
theorem bm25_normalization_safe (scores : List Score)
    (h : ∀ s ∈ scores, 0 ≤ s) :
    (∀ x ∈ normalizeBm25 scores, 0 ≤ x ∧ x ≤ 1) ∧
      (pyMax scores = 0 → ∀ x ∈ normalizeBm25 scores, x = 0) := by
  constructor
  · intro x hx
    simp only [normalizeBm25, List.mem_map] at hx
    obtain ⟨s, hs, rfl⟩ := hx
    by_cases hm : 0 < pyMax scores
    · rw [if_pos hm]
      exact ⟨div_nonneg (h s hs) (le_of_lt hm),
        (div_le_one hm).mpr (le_pyMax hs)⟩
    · rw [if_neg hm]
      refine ⟨by simpa using h s hs, ?_⟩
      have h1 : s ≤ 0 := le_trans (le_pyMax hs) (not_lt.mp hm)
      simpa using le_trans h1 zero_le_one
  · intro hzero x hx
    simp only [normalizeBm25, List.mem_map] at hx
    obtain ⟨s, hs, rfl⟩ := hx
    have h1 : s = 0 := le_antisymm (le_trans (le_pyMax hs) (le_of_eq hzero))
      (h s hs)
    simp [h1]

/-- Witness for `bm25_normalization_safe`: raw scores 0.5 and 2 normalize to
0.25 and 1; the member 1 is in [0,1]. -/
theorem bm25_normalization_safe_witness : 0 ≤ (1 : ℚ) ∧ (1 : ℚ) ≤ 1 :=
  (bm25_normalization_safe [1 / 2, 2] (by norm_num)).1 1
    (by norm_num [normalizeBm25, pyMax])

/-! Lemmas for the embedder (C2). -/

theorem pyEnumFrom_mem_get (l : List α) :
    ∀ (i j : Nat) (t : α), (j, t) ∈ pyEnumFrom i l →
      i ≤ j ∧ l.get? (j - i) = some t := by
  induction l with
  | nil => intro i j t h; cases h
  | cons x xs ih =>
    intro i j t h
    rcases List.mem_cons.mp h with heq | h
    · simp only [Prod.mk.injEq] at heq
      obtain ⟨rfl, rfl⟩ := heq
      simp
    · obtain ⟨h1, h2⟩ := ih (i + 1) j t h
      refine ⟨by omega, ?_⟩
      obtain ⟨n, hn⟩ : ∃ n, j - i = n + 1 := ⟨j - i - 1, by omega⟩
      rw [hn, List.get?_cons_succ]
      have : n = j - (i + 1) := by omega
      rw [this]
      exact h2

theorem pyEnum_mem_get {l : List α} {j : Nat} {t : α}
    (h : (j, t) ∈ pyEnum l) : l.get? j = some t := by
  simpa using (pyEnumFrom_mem_get l 0 j t h).2

theorem batchesGo_subset (n : Nat) :
    ∀ (fuel : Nat) (l : List α) (b : List α), b ∈ batchesGo n fuel l →
      ∀ x ∈ b, x ∈ l := by
  intro fuel
  induction fuel with
  | zero => intro l b hb; cases l <;> simp [batchesGo] at hb
  | succ fuel ih =>
    intro l b hb x hx
    cases l with
    | nil => simp [batchesGo] at hb
    | cons y ys =>
      rcases List.mem_cons.mp (by simpa [batchesGo] using hb) with rfl | hb'
      · exact List.Sublist.mem hx (List.take_sublist n (y :: ys))
      · exact List.Sublist.mem (ih ((y :: ys).drop n) b hb' x hx)
          (List.drop_sublist n (y :: ys))

theorem batches_subset {n : Nat} {l : List α} {b : List α}
    (hb : b ∈ batches n l) : ∀ x ∈ b, x ∈ l :=
  batchesGo_subset n l.length l b hb

/-- Elements of `texts_to_embed` are non-empty texts at their own index. -/
theorem embedPending_spec (cache : String → Option Vec) (texts : List String)
    (useCache : Bool) :
    ∀ q ∈ embedPending cache texts useCache,
      isEmptyOrWs q.2 = false ∧ texts.get? q.1 = some q.2 := by
  intro q hq
  obtain ⟨j, t⟩ := q
  cases useCache <;>
  · simp only [embedPending, List.mem_filter, Bool.and_eq_true,
      Bool.not_eq_true', Bool.false_eq_true, ite_true, ite_false] at hq
    obtain ⟨hmem, hcond⟩ := hq
    have hget : texts.get? j = some t := pyEnum_mem_get hmem
    first
    | exact ⟨hcond, hget⟩
    | exact ⟨hcond.1, hget⟩

theorem foldl_set_get_ne (i : Nat) :
    ∀ (ps : List ((Nat × String) × Vec)) (a : List (Option Vec)),
      (∀ p ∈ ps, p.1.1 ≠ i) →
      (ps.foldl (fun a p => a.set p.1.1 (some p.2)) a).get? i = a.get? i := by
  intro ps
  induction ps with
  | nil => intro a _; rfl
  | cons p ps ih =>
    intro a hne
    rw [List.foldl_cons, ih _ (fun q hq => hne q (List.mem_cons_of_mem p hq))]
    exact List.get?_set_ne _ a (hne p (List.mem_cons_self p ps))

theorem foldl_applyBatch_get_ne (remoteBatch : List String → List Vec)
    (i : Nat) :
    ∀ (bs : List (List (Nat × String))) (a : List (Option Vec)),
      (∀ b ∈ bs, ∀ q ∈ b, q.1 ≠ i) →
      (bs.foldl (embedApplyBatch remoteBatch) a).get? i = a.get? i := by
  intro bs
  induction bs with
  | nil => intro a _; rfl
  | cons b bs ih =>
    intro a h
    rw [List.foldl_cons,
      ih _ (fun b' hb' q hq => h b' (List.mem_cons_of_mem b hb') q hq)]
    apply foldl_set_get_ne
    intro p hp
    have hp1 : p.1 ∈ b := by
      obtain ⟨p1, p2⟩ := p
      exact (List.mem_zip hp).1
    exact h b (List.mem_cons_self b bs) p.1 hp1

/-- C2 counterexample: the single-text embedding of an empty (or
whitespace-only) string raises `ValueError("Cannot embed empty text")`
instead of returning a zero vector; no remote request is issued. -/
theorem embed_empty_raises_counterexample :
    embedText (fun _ => c2Remote) (fun _ => none) "" true =
        (.error .emptyText, []) ∧
      embedText (fun _ => c2Remote) (fun _ => none) "   " true =
        (.error .emptyText, []) :=
  ⟨rfl, rfl⟩

/-- C2 amended: batch embedding gives every empty or whitespace-only input a
zero vector of the model-fixed dimensionality (3072) computed locally and
never sends such a text to the remote service (a batch of only empty texts
issues zero remote calls); the single-text embedding instead raises a
`ValueError` on empty/whitespace input, likewise without any remote call. -/
theorem embedder_empty_input (remote : String → Vec)
    (remoteBatch : List String → List Vec) (cache : String → Option Vec)
    (texts : List String) (useCache : Bool) :
    (∀ text, isEmptyOrWs text = true →
      embedText remote cache text useCache = (.error .emptyText, [])) ∧
    (∀ (i : Nat) (t : String), texts.get? i = some t → isEmptyOrWs t = true →
      (embedTexts remoteBatch cache texts useCache).1.get? i = some zeroVec) ∧
    (∀ b ∈ (embedTexts remoteBatch cache texts useCache).2, ∀ s ∈ b,
      isEmptyOrWs s = false) ∧
    ((∀ t ∈ texts, isEmptyOrWs t = true) →
      (embedTexts remoteBatch cache texts useCache).2 = []) ∧
    zeroVec.length = EMBEDDING_DIMENSIONS := by
  refine ⟨?_, ?_, ?_, ?_, by simp [zeroVec]⟩
  · intro text h
    simp [embedText, h]
  · intro i t hi ht
    have hkey : ∀ b ∈ batches MAX_BATCH_SIZE
        (embedPending cache texts useCache), ∀ q ∈ b, q.1 ≠ i := by
      intro b hb q hq hqi
      obtain ⟨hq2, hget⟩ := embedPending_spec cache texts useCache q
        (batches_subset hb q hq)
      rw [hqi, hi] at hget
      obtain rfl := Option.some.inj hget
      rw [ht] at hq2
      cases hq2
    have hne : texts.isEmpty = false := by
      cases texts
      · simp at hi
      · rfl
    cases useCache with
    | false =>
      have h1 : (embedInit cache texts false).get? i = some none := by
        simp only [embedInit, Bool.false_eq_true, ite_false]
        rw [List.get?_map, hi]
        rfl
      simp only [embedTexts, hne, Bool.false_eq_true, ite_false]
      rw [List.get?_map, foldl_applyBatch_get_ne remoteBatch i _ _ hkey, h1]
      rfl
    | true =>
      have h1 : (embedInit cache texts true).get? i = some (some zeroVec) := by
        simp only [embedInit, ite_true]
        rw [List.get?_map, hi]
        simp [ht]
      simp only [embedTexts, hne, Bool.false_eq_true, ite_false]
      rw [List.get?_map, foldl_applyBatch_get_ne remoteBatch i _ _ hkey, h1]
      rfl
  · intro b hb s hs
    cases texts with
    | nil => simp [embedTexts] at hb
    | cons x xs =>
      simp only [embedTexts, List.isEmpty_cons, Bool.false_eq_true,
        ite_false] at hb
      obtain ⟨batch, hbatch, rfl⟩ := List.mem_map.mp hb
      obtain ⟨q, hq, rfl⟩ := List.mem_map.mp hs
      exact (embedPending_spec cache (x :: xs) useCache q
        (batches_subset hbatch q hq)).1
  · intro hall
    cases texts with
    | nil => simp [embedTexts]
    | cons x xs =>
      have hpend : embedPending cache (x :: xs) useCache = [] := by
        cases useCache <;>
        · refine List.filter_eq_nil.mpr ?_
          intro q hq
          obtain ⟨j, t⟩ := q
          have ht : t ∈ x :: xs := List.get?_mem (pyEnum_mem_get hq)
          simp [hall t ht]
      simp [embedTexts, hpend, batches, batchesGo]

/-- Witness for `embedder_empty_input`: a batch of an empty and a non-empty
text gives the empty slot the zero vector. -/
theorem embedder_empty_input_witness :
    (embedTexts (fun b => b.map (fun _ => c2Remote)) (fun _ => none)
      ["", "hello"] true).1.get? 0 = some zeroVec :=
  (embedder_empty_input (fun _ => c2Remote)
    (fun b => b.map (fun _ => c2Remote)) (fun _ => none) ["", "hello"]
    true).2.1 0 "" rfl rfl

/-- C1: every candidate returned by hybrid search carries
`combinedScore = vectorWeight × similarityScore + bm25Weight ×
normalizedLexicalScore`; and in the spec's fusion scenario — weights
0.7/0.3, similarities {0.9, 0.6}, normalized lexical scores {0.2, 1.0} —
the combined scores are {0.69, 0.72} and the second candidate is returned
first. -/
theorem score_fusion (vectorSearch : VectorRequest → List SearchResult)
    (bm25 : List (List String) → List String → List Score)
    (vw bw : Score) (query : String) (topK : Nat)
    (borough category : Option String) (threshold : Score) :
    (∀ r ∈ (hybridSearch vectorSearch bm25 vw bw query topK borough category
        threshold).1,
      r.combinedScore =
        some (vw * r.similarityScore + bw * (r.bm25Score.getD 0))) ∧
    c1Run.1 = [c1Fused2, c1Fused1] := by
  constructor
  · intro r hr
    rw [hybridSearch] at hr
    by_cases h : vectorSearch ⟨threshold * (8 / 10), hybridCandidateCount topK,
        borough, category⟩ = []
    · rw [if_pos h] at hr
      exact absurd hr (List.not_mem_nil r)
    · rw [if_neg h] at hr
      have hr2 := List.Sublist.mem hr (List.take_sublist topK _)
      have hr3 := (pySortDesc_perm combinedKey _).mem_iff.mp hr2
      obtain ⟨p, hp, rfl⟩ := List.mem_map.mp hr3
      show some (p.1.similarityScore * vw + p.2 * bw) =
        some (vw * p.1.similarityScore + bw * ((some p.2).getD 0))
      simp only [Option.getD_some]
      congr 1
      ring
  · have hmax : pyMax [1/5, 1] = 1 := by
      norm_num [pyMax, List.foldl, max_def]
    have hnorm : normalizeBm25 [1/5, 1] = [1/5, 1] := by
      norm_num [normalizeBm25, hmax]
    show (hybridSearch c1VectorSearch c1Bm25 (7/10) (3/10) "query text" 10
      none none (3/4)).1 = _
    rw [hybridSearch]
    simp only [c1VectorSearch, c1Bm25, hnorm]
    rw [if_neg (by simp)]
    simp only [List.zip_cons_cons, List.zip_nil_right, List.map_cons,
      List.map_nil]
    simp only [pySortDesc, List.insertionSort, List.orderedInsert]
    rw [if_neg (by norm_num [keyGE, combinedKey, c1Result1, c1Result2])]
    simp [c1Result1, c1Result2, c1Fused1, c1Fused2]
    norm_num

/-- Witness for `score_fusion`: the first returned candidate of the fusion
scenario satisfies the fusion formula. -/
theorem score_fusion_witness :
    c1Fused2.combinedScore =
      some ((7/10) * c1Fused2.similarityScore
        + (3/10) * (c1Fused2.bm25Score.getD 0)) :=
  (score_fusion c1VectorSearch c1Bm25 (7/10) (3/10) "query text" 10 none none
    (3/4)).1 _ (by
      show _ ∈ c1Run.1
      rw [(score_fusion c1VectorSearch c1Bm25 (7/10) (3/10) "query text" 10
        none none (3/4)).2]
      exact List.mem_cons_self _ _)

/-- C6: hybrid retrieval requests `min(3 × topK, 50)` candidates from the
vector index at 0.8 × threshold — strictly below the acceptance threshold
whenever that threshold is positive — and returns at most `topK` results
sorted in non-increasing order of combined score. -/
theorem hybrid_retrieval_contract
    (vectorSearch : VectorRequest → List SearchResult)
    (bm25 : List (List String) → List String → List Score)
    (vw bw : Score) (query : String) (topK : Nat)
    (borough category : Option String) (threshold : Score)
    (hth : 0 < threshold) :
    (hybridSearch vectorSearch bm25 vw bw query topK borough category
        threshold).2 =
      ⟨threshold * (8 / 10), min (topK * 3) 50, borough, category⟩ ∧
    (hybridSearch vectorSearch bm25 vw bw query topK borough category
        threshold).2.threshold < threshold ∧
    (hybridSearch vectorSearch bm25 vw bw query topK borough category
        threshold).1.length ≤ topK ∧
    (hybridSearch vectorSearch bm25 vw bw query topK borough category
        threshold).1.Sorted (keyGE combinedKey) := by
  have hsnd : (hybridSearch vectorSearch bm25 vw bw query topK borough
      category threshold).2 =
      ⟨threshold * (8 / 10), min (topK * 3) 50, borough, category⟩ := by
    rw [hybridSearch]
    split <;> rfl
  refine ⟨hsnd, ?_, ?_, ?_⟩
  · rw [hsnd]
    show threshold * (8 / 10) < threshold
    linarith
  · rw [hybridSearch]
    split
    · exact Nat.zero_le topK
    · exact List.length_take_le topK _
  · rw [hybridSearch]
    split
    · exact List.sorted_nil
    · exact List.Pairwise.sublist (List.take_sublist topK _)
        (pySortDesc_sorted combinedKey _)

/-- Under the no-boost hypotheses the adjusted score equals the base score. -/
theorem adjustedScore_eq_baseScore {query : String} {r : SearchResult}
    (hterm : termMatchCount query r = 0)
    (hphrase : phraseMatch query r = false)
    (hsec : sectionMatch query r = false) (hpage : pageBoost r = 0) :
    adjustedScore query r = baseScore r := by
  rw [adjustedScore, hterm, hphrase, hsec, hpage]
  norm_num

/-- Stability of the heuristic rerank: results sharing an adjusted score
keep their original relative order. -/
theorem heuristicRerank_filter (query : String) (results : List SearchResult)
    (c : Score) :
    (heuristicRerank query results).filter
        (fun r => adjustedScore query r = c) =
      results.filter (fun r => adjustedScore query r = c) := by
  have hmem : ∀ x ∈ pySortDesc Prod.fst
      (results.map (fun r => (adjustedScore query r, r))),
      x.1 = adjustedScore query x.2 := by
    intro x hx
    have hx2 := (pySortDesc_perm _ _).mem_iff.mp hx
    obtain ⟨r, _, rfl⟩ := List.mem_map.mp hx2
    rfl
  unfold heuristicRerank
  rw [List.filter_map]
  have h1 : (pySortDesc Prod.fst
        (results.map (fun r => (adjustedScore query r, r)))).filter
        ((fun r => decide (adjustedScore query r = c)) ∘ Prod.snd) =
      (pySortDesc Prod.fst
        (results.map (fun r => (adjustedScore query r, r)))).filter
        (fun x => decide (x.1 = c)) :=
    List.filter_congr (fun x hx => by
      rw [Function.comp_apply, hmem x hx])
  rw [h1, pySortDesc_filter_key, List.filter_map,
    List.filter_congr (fun r _ => rfl : ∀ r ∈ results,
      ((fun x => decide (x.1 = c)) ∘ fun r => (adjustedScore query r, r)) r =
        decide (adjustedScore query r = c))]
  simp [List.map_map, Function.comp_def]

/-- C5 counterexample: two results already sorted descending by their
existing (combined) score, with no query term occurring in either content,
are returned in swapped order by the enabled reranker: the lower-ranked
result sits on page 1 and gains the +0.02 page-number boost
(0.50 + 0.02 > 0.51). -/
theorem rerank_page_boost_counterexample :
    baseScore c5Result2 ≤ baseScore c5Result1 ∧
    termMatchCount "zzz" c5Result1 = 0 ∧
    termMatchCount "zzz" c5Result2 = 0 ∧
    rerank c5Cfg "zzz" [c5Result1, c5Result2] (some 2) =
      [c5Result2, c5Result1] ∧
    c5Result1 ≠ c5Result2 := by
  refine ⟨by norm_num [baseScore, c5Result1, c5Result2], by decide, by decide,
    ?_, ?_⟩
  · have ha1 : adjustedScore "zzz" c5Result1 = 51/100 := by
      rw [adjustedScore, show termMatchCount "zzz" c5Result1 = 0 from by decide,
        show phraseMatch "zzz" c5Result1 = false from by decide,
        show sectionMatch "zzz" c5Result1 = false from by decide]
      norm_num [baseScore, pageBoost, c5Result1]
    have ha2 : adjustedScore "zzz" c5Result2 = 52/100 := by
      rw [adjustedScore, show termMatchCount "zzz" c5Result2 = 0 from by decide,
        show phraseMatch "zzz" c5Result2 = false from by decide,
        show sectionMatch "zzz" c5Result2 = false from by decide]
      norm_num [baseScore, pageBoost, c5Result2]
    have hk : ¬ keyGE (Prod.fst (α := Score) (β := SearchResult))
        (51/100, c5Result1) (52/100, c5Result2) := by norm_num [keyGE]
    rw [rerank]
    rw [if_neg (by simp [c5Cfg])]
    simp only [c5Cfg]
    simp only [heuristicRerank, List.map_cons, List.map_nil, ha1, ha2,
      pySortDesc, List.insertionSort, List.orderedInsert]
    rw [if_neg hk]
    simp
  · intro h
    have := congrArg SearchResult.chunkId h
    exact absurd this (by decide)

/-- C5 amended: if no query term or full-query phrase occurs in any result's
content, no query term occurs in any section title, and no result earns the
page-number boost, then the enabled reranker returns an
already-sorted-by-score list unchanged (truncated to topK); and in general,
results with equal adjusted scores keep their original relative order
(stable sort). -/
theorem rerank_stability (cfg : RerankerCfg) (query : String)
    (results : List SearchResult) (topK : Nat) :
    ((results.Sorted (keyGE baseScore)) →
     (∀ r ∈ results, termMatchCount query r = 0 ∧
        phraseMatch query r = false ∧ sectionMatch query r = false ∧
        pageBoost r = 0) →
     cfg.enabled = true → topK ≠ 0 →
     rerank cfg query results (some topK) = results.take topK) ∧
    ∀ c : Score, (heuristicRerank query results).filter
        (fun r => adjustedScore query r = c) =
      results.filter (fun r => adjustedScore query r = c) := by
  refine ⟨?_, heuristicRerank_filter query results⟩
  intro hsorted hcond hen htk
  have hsort_eq : heuristicRerank query results = results := by
    unfold heuristicRerank
    have hscored : (results.map (fun r => (adjustedScore query r, r))).Sorted
        (keyGE Prod.fst) := by
      rw [List.Sorted, List.pairwise_map]
      refine hsorted.imp_of_mem ?_
      intro a b ha hb hr
      show adjustedScore query b ≤ adjustedScore query a
      rw [adjustedScore_eq_baseScore (hcond a ha).1 (hcond a ha).2.1
          (hcond a ha).2.2.1 (hcond a ha).2.2.2,
        adjustedScore_eq_baseScore (hcond b hb).1 (hcond b hb).2.1
          (hcond b hb).2.2.1 (hcond b hb).2.2.2]
      exact hr
    rw [pySortDesc_of_sorted Prod.fst hscored]
    simp [List.map_map, Function.comp_def]
  rw [rerank]
  by_cases hres : results = []
  · subst hres
    simp
  · rw [if_neg (by simp [hen, hres])]
    rw [if_pos htk, hsort_eq]

/-- Witness for `rerank_stability`: the singleton boost-free input passes
through the enabled reranker unchanged. -/
theorem rerank_stability_witness :
    rerank c5Cfg "zzz" [c5Result1] (some 1) = [c5Result1].take 1 :=
  (rerank_stability c5Cfg "zzz" [c5Result1] 1).1
    (List.sorted_singleton _)
    (by
      intro r hr
      rw [List.mem_singleton] at hr
      subst hr
      exact ⟨by decide, by decide, by decide,
        by norm_num [pageBoost, c5Result1]⟩)
    rfl (by decide)

/-- Witness for `hybrid_retrieval_contract`: the fusion-scenario run at
acceptance threshold 0.75. -/
theorem hybrid_retrieval_contract_witness :
    (hybridSearch c1VectorSearch c1Bm25 (7/10) (3/10) "query text" 10 none
        none (3/4)).2 =
      ⟨(3/4) * (8 / 10), min (10 * 3) 50, none, none⟩ ∧
    (hybridSearch c1VectorSearch c1Bm25 (7/10) (3/10) "query text" 10 none
        none (3/4)).2.threshold < 3/4 ∧
    (hybridSearch c1VectorSearch c1Bm25 (7/10) (3/10) "query text" 10 none
        none (3/4)).1.length ≤ 10 ∧
    (hybridSearch c1VectorSearch c1Bm25 (7/10) (3/10) "query text" 10 none
        none (3/4)).1.Sorted (keyGE combinedKey) :=
  hybrid_retrieval_contract c1VectorSearch c1Bm25 (7/10) (3/10) "query text"
    10 none none (3/4) (by norm_num)

/-! Invariant lemmas for the chunker (C3). -/

theorem forceSplitGo_spec (tk : Tokenizer) (size step : Nat)
    (page : Option Nat) (sec : Option String) :
    ∀ (fuel idx : Nat) (toks : List Nat),
      ∀ p ∈ forceSplitGo tk size step page sec fuel idx toks,
        p.1.tokenCount ≤ size ∧ p.2 = ChunkTag.forcedLeaf := by
  intro fuel
  induction fuel with
  | zero => intro idx toks p hp; cases toks <;> simp [forceSplitGo] at hp
  | succ fuel ih =>
    intro idx toks p hp
    cases toks with
    | nil => simp [forceSplitGo] at hp
    | cons t ts =>
      rcases List.mem_cons.mp (by simpa [forceSplitGo] using hp) with rfl | hp'
      · exact ⟨inf_le_left, rfl⟩
      · exact ih (idx + 1) ((t :: ts).drop step) p hp'

theorem forceSplit_spec (tk : Tokenizer) (cfg : ChunkerCfg) (text : String)
    (startIndex : Nat) (page : Option Nat) (sec : Option String) :
    ∀ p ∈ forceSplit tk cfg text startIndex page sec,
      p.1.tokenCount ≤ cfg.chunkSize ∧ p.2 = ChunkTag.forcedLeaf :=
  fun p hp => forceSplitGo_spec tk cfg.chunkSize
    (cfg.chunkSize - cfg.chunkOverlap) page sec _ startIndex _ p hp

theorem sentLoop_spec (tk : Tokenizer) (cfg : ChunkerCfg) (page : Option Nat)
    (sec : Option String) :
    ∀ (sentences : List String) (st : BufState)
      (acc : List (TextChunk × ChunkTag)),
      (st.tag ≠ ChunkTag.overlapSeeded → st.tokens ≤ cfg.chunkSize) →
      (∀ p ∈ acc, p.2 ≠ ChunkTag.overlapSeeded →
        p.1.tokenCount ≤ cfg.chunkSize) →
      ∀ p ∈ sentLoop tk cfg page sec sentences st acc,
        p.2 ≠ ChunkTag.overlapSeeded → p.1.tokenCount ≤ cfg.chunkSize := by
  intro sentences
  induction sentences with
  | nil =>
    intro st acc hst hacc p hp
    rw [sentLoop] at hp
    by_cases hc : st.content.isEmpty
    · rw [if_pos hc] at hp
      exact hacc p (List.mem_reverse.mp hp)
    · rw [if_neg hc] at hp
      rcases List.mem_cons.mp (List.mem_reverse.mp hp) with rfl | hp'
      · intro htag
        exact hst htag
      · exact hacc p hp'
  | cons sentence rest ih =>
    intro st acc hst hacc p hp
    rw [sentLoop] at hp
    by_cases h1 : cfg.chunkSize < countTokens tk sentence
    · rw [if_pos h1] at hp
      simp only [] at hp
      refine ih _ _ (fun _ => Nat.zero_le _) ?_ p hp
      intro q hq
      rcases List.mem_append.mp hq with hq' | hq'
      · intro _
        exact (forceSplit_spec tk cfg sentence _ page sec q
          (List.mem_reverse.mp hq')).1
      · by_cases hc : st.content.isEmpty
        · rw [if_pos hc] at hq'
          exact hacc q hq'
        · rw [if_neg hc] at hq'
          rcases List.mem_cons.mp hq' with rfl | hq''
          · intro htag
            exact hst htag
          · exact hacc q hq''
    · rw [if_neg h1] at hp
      by_cases h2 : cfg.chunkSize < st.tokens + countTokens tk sentence
      · rw [if_pos h2] at hp
        simp only [] at hp
        refine ih _ _ ?_ ?_ p hp
        · by_cases hov : (getSentenceOverlap tk cfg.chunkOverlap
              st.content).isEmpty
          · intro _
            rw [List.isEmpty_iff] at hov
            simp only [hov, List.nil_append]
            show countTokens tk (joinSep " " [sentence]) ≤ cfg.chunkSize
            rw [joinSep]
            exact not_lt.mp h1
          · simp only [hov, Bool.false_eq_true, ite_false]
            intro htag
            exact absurd rfl htag
        · intro q hq
          rcases List.mem_cons.mp hq with rfl | hq'
          · intro htag
            exact hst htag
          · exact hacc q hq'
      · rw [if_neg h2] at hp
        refine ih _ _ (fun _ => not_lt.mp h2) hacc p hp

theorem chunkLargeParagraph_spec (tk : Tokenizer) (cfg : ChunkerCfg)
    (splitS : String → List String) (paragraph : String) (startIndex : Nat)
    (page : Option Nat) (sec : Option String) :
    ∀ p ∈ chunkLargeParagraph tk cfg splitS paragraph startIndex page sec,
      p.2 ≠ ChunkTag.overlapSeeded → p.1.tokenCount ≤ cfg.chunkSize :=
  fun p hp => sentLoop_spec tk cfg page sec _ _ _
    (fun _ => Nat.zero_le _) (fun q hq => absurd hq (List.not_mem_nil q)) p hp

theorem paraLoop_spec (tk : Tokenizer) (cfg : ChunkerCfg)
    (splitS : String → List String) (page : Option Nat)
    (sec : Option String) :
    ∀ (paragraphs : List String) (st : BufState)
      (acc : List (TextChunk × ChunkTag)),
      (st.tag ≠ ChunkTag.overlapSeeded → st.tokens ≤ cfg.chunkSize) →
      (∀ p ∈ acc, p.2 ≠ ChunkTag.overlapSeeded →
        p.1.tokenCount ≤ cfg.chunkSize) →
      ∀ p ∈ paraLoop tk cfg splitS page sec paragraphs st acc,
        p.2 ≠ ChunkTag.overlapSeeded → p.1.tokenCount ≤ cfg.chunkSize := by
  intro paragraphs
  induction paragraphs with
  | nil =>
    intro st acc hst hacc p hp
    rw [paraLoop] at hp
    by_cases hc : st.content.isEmpty
    · rw [if_pos hc] at hp
      exact hacc p (List.mem_reverse.mp hp)
    · rw [if_neg hc] at hp
      rcases List.mem_cons.mp (List.mem_reverse.mp hp) with rfl | hp'
      · intro htag
        exact hst htag
      · exact hacc p hp'
  | cons para rest ih =>
    intro st acc hst hacc p hp
    rw [paraLoop] at hp
    by_cases h1 : cfg.chunkSize < countTokens tk para
    · rw [if_pos h1] at hp
      simp only [] at hp
      refine ih _ _ (fun _ => Nat.zero_le _) ?_ p hp
      intro q hq
      rcases List.mem_append.mp hq with hq' | hq'
      · exact chunkLargeParagraph_spec tk cfg splitS para _ page sec q
          (List.mem_reverse.mp hq')
      · by_cases hc : st.content.isEmpty
        · rw [if_pos hc] at hq'
          exact hacc q hq'
        · rw [if_neg hc] at hq'
          rcases List.mem_cons.mp hq' with rfl | hq''
          · intro htag
            exact hst htag
          · exact hacc q hq''
    · rw [if_neg h1] at hp
      by_cases h2 : cfg.chunkSize < st.tokens + countTokens tk para
      · rw [if_pos h2] at hp
        simp only [] at hp
        refine ih _ _ ?_ ?_ p hp
        · by_cases hov : (getOverlap tk cfg.chunkOverlap st.content).isEmpty
          · intro _
            rw [List.isEmpty_iff] at hov
            simp only [hov, List.nil_append]
            show countTokens tk (joinSep "\n\n" [para]) ≤ cfg.chunkSize
            rw [joinSep]
            exact not_lt.mp h1
          · simp only [hov, Bool.false_eq_true, ite_false]
            intro htag
            exact absurd rfl htag
        · intro q hq
          rcases List.mem_cons.mp hq with rfl | hq'
          · intro htag
            exact hst htag
          · exact hacc q hq'
      · rw [if_neg h2] at hp
        refine ih _ _ (fun _ => not_lt.mp h2) hacc p hp

/-- C3 counterexample: with target size 10 and overlap budget 5, the three
paragraphs of 5, 4 and 9 tokens produce a second chunk whose buffer was
seeded with the 4-token overlap paragraph; its recorded token count is
4 + 2 + 9 = 15 > 10, although it is not a forced-split leaf — the chunk-size
bound does not extend to overlap-seeded chunks. -/
theorem chunk_size_bound_counterexample :
    (chunkTextTagged charTokenizer c3Cfg oneSentence c3Text none none).map
        (fun p => (p.1.content, p.1.tokenCount, p.2)) =
      [("aaaaa\n\nbbbb", 9, ChunkTag.normal),
        ("bbbb\n\nccccccccc", 15, ChunkTag.overlapSeeded)] ∧
      c3Cfg.chunkSize < 15 := by
  decide

/-- C3 amended: every chunk except the leaves of the raw-token forced split
and except the chunks whose buffer was seeded with (nonempty) overlap
content from the previous chunk has `tokenCount ≤ chunkSize`; forced-split
leaves also satisfy the bound, so only overlap-seeded chunks may exceed it.
The hypothesis `chunkOverlap < chunkSize` delimits the configurations on
which the Python `range` step of the forced split is positive. -/
theorem chunk_size_bound_amended (tk : Tokenizer) (cfg : ChunkerCfg)
    (splitS : String → List String) (text : String) (page : Option Nat)
    (sec : Option String) (hcfg : cfg.chunkOverlap < cfg.chunkSize) :
    ∀ p ∈ chunkTextTagged tk cfg splitS text page sec,
      p.2 ≠ ChunkTag.overlapSeeded → p.1.tokenCount ≤ cfg.chunkSize := by
  intro p hp
  rw [chunkTextTagged] at hp
  by_cases h : pyStrip text = ""
  · rw [if_pos h] at hp
    exact absurd hp (List.not_mem_nil p)
  · rw [if_neg h] at hp
    exact paraLoop_spec tk cfg splitS page sec _ _ _
      (fun _ => Nat.zero_le _) (fun q hq => absurd hq (List.not_mem_nil q))
      p hp

/-- Witness for `chunk_size_bound_amended`: the normal first chunk of the
counterexample run satisfies the bound. -/
theorem chunk_size_bound_amended_witness :
    (⟨⟨"aaaaa\n\nbbbb", 0, 9, none, none, 0, 11⟩, ChunkTag.normal⟩ :
        TextChunk × ChunkTag).1.tokenCount ≤ c3Cfg.chunkSize :=
  chunk_size_bound_amended charTokenizer c3Cfg oneSentence c3Text none none
    (by decide)
    ⟨⟨"aaaaa\n\nbbbb", 0, 9, none, none, 0, 11⟩, ChunkTag.normal⟩
    (by decide) (by decide)

end NLPlanning
